import Mathlib

/-!
Verification of the `homeassistant` core kernel (`homeassistant/__init__.py`):
a shallow embedding of the event bus, state machine and service registry,
together with theorems checking the natural-language specification.

Python dictionaries are modelled as insertion-ordered association lists with
first-match lookup and in-place overwrite on key assignment.  Python
`datetime` values are modelled as pairs of whole seconds and microseconds.
Machine addresses (object identity) appear only where a claim is about
aliasing; there the relevant objects live in an explicit heap (a list indexed
by allocation order).
-/

namespace HA

/-- A timestamp: whole seconds since an arbitrary epoch plus a microsecond
part in `[0, 1000000)`.  The bound is irrelevant to the claims, so it is not
enforced by the type. -/
structure PyTime where
  sec : Nat
  usec : Nat
  deriving DecidableEq, Repr

/-- `datetime` comparison, lexicographic on (seconds, microseconds). -/
def PyTime.le (a b : PyTime) : Bool :=
  a.sec < b.sec || (a.sec == b.sec && a.usec ≤ b.usec)

/-- Modelled from the spec: `homeassistant.util.strip_microseconds` is not
under `src/`; the spec says timestamps are "truncated to whole seconds". -/
def strip_microseconds (t : PyTime) : PyTime := ⟨t.sec, 0⟩

/-- A Python `dict` with string keys: insertion-ordered association list,
unique keys maintained by `pyInsert`. -/
abbrev Dict := List (String × String)

/-- First-match lookup, `d.get(k)`. -/
def dictGet (d : Dict) (k : String) : Option String :=
  match d with
  | [] => none
  | (k', v) :: rest => if k' = k then some v else dictGet rest k

/-- Python `d[k] = v`: overwrite in place if the key exists (keeping its
position), otherwise append. -/
def pyInsert (d : Dict) (k v : String) : Dict :=
  match d with
  | [] => [(k, v)]
  | (k', v') :: rest =>
      if k' = k then (k, v) :: rest else (k', v') :: pyInsert rest k v

/-- Python `dict` equality (`d1 == d2`): same keys mapped to equal values,
ignoring insertion order.  Each entry of either dict must be found in the
other; on dicts with unique keys (the only ones Python can build) this is
exactly extensional equality of the key-value mapping. -/
def pyDictEq (a b : Dict) : Bool :=
  a.all (fun p => dictGet b p.1 == some p.2) &&
    b.all (fun p => dictGet a p.1 == some p.2)

/-- The ASCII restriction of the `\w` class of `ENTITY_ID_PATTERN`:
letters, digits and underscore.  Python 3's `\w` additionally matches
Unicode word characters (e.g. 'é'); that behavior is outside this model,
so every theorem about the pattern is stated for ASCII inputs only. -/
def pyWordChar (c : Char) : Bool := c.isAlphanum || c == '_'

/-- The ASCII restriction of `str.lower()` on one character: map `'A'..'Z'`
(code points 65–90) to `'a'..'z'`, leave everything else.  Python's
`str.lower()` additionally lowercases Unicode letters; that behavior is
outside this model. -/
def pyLowerChar (c : Char) : Char :=
  if 65 ≤ c.toNat ∧ c.toNat ≤ 90 then Char.ofNat (c.toNat + 32) else c

/-- `str.lower()`, applied characterwise (ASCII restriction, see
`pyLowerChar`). -/
def pyLower (s : String) : String := ⟨s.data.map pyLowerChar⟩

/-- The body of `ENTITY_ID_PATTERN`, `\w+\.\w+`, matched against an entire
character list: a non-empty word, a literal dot, then a non-empty word.
Since a dot is not a word character, the first `\w+` can only match the
maximal word prefix. -/
def wordDotWord (cs : List Char) : Bool :=
  let w1 := cs.takeWhile pyWordChar
  let rest := cs.dropWhile pyWordChar
  !w1.isEmpty && rest.headD ' ' == '.' && !rest.tail.isEmpty &&
    rest.tail.all pyWordChar

/-- `ENTITY_ID_PATTERN.match`, i.e. Python `re.match` against
`^(?P<domain>\w+)\.(?P<entity>\w+)$`.  In Python `$` matches at the end of
the string and also just before a single newline at the end of the string,
so the accepted language is `\w+\.\w+` optionally followed by one `'\n'`.
This inherits `pyWordChar`'s ASCII restriction: the real pattern also
accepts ids with Unicode word characters, which are outside this model. -/
def entityIdMatch (s : String) : Bool :=
  let cs := if s.data.getLast? = some '\n' then s.data.dropLast else s.data
  wordDotWord cs

/-- A state of an entity (`homeassistant.State`); fields as in the source's
`__slots__`. -/
structure State where
  entity_id : String
  state : String
  attributes : Dict
  last_changed : PyTime
  last_updated : PyTime
  deriving DecidableEq, Repr

instance : Inhabited State := ⟨⟨"", "", [], ⟨0, 0⟩, ⟨0, 0⟩⟩⟩

/-- `State.__init__`.  `none` is the `InvalidEntityFormatError` raised when
the entity id does not match `ENTITY_ID_PATTERN`; otherwise the id is
lowercased, `last_updated` is set to the current time `now`, and
`last_changed` is the given value (defaulting to `last_updated`) with
microseconds stripped. -/
def State.init (entity_id state : String) (attributes : Option Dict)
    (last_changed : Option PyTime) (now : PyTime) : Option State :=
  if entityIdMatch entity_id then
    some { entity_id := pyLower entity_id
           state := state
           attributes := attributes.getD []
           last_updated := now
           last_changed := strip_microseconds (last_changed.getD now) }
  else
    none

/-- `State.__eq__`: compares class, `entity_id`, `state` and `attributes`
only; timestamps do not participate. -/
def State.pyEq (a b : State) : Bool :=
  a.entity_id == b.entity_id && a.state == b.state && a.attributes == b.attributes

/-- `State.copy`: calls the constructor with the same entity id, state,
a shallow copy (`dict(...)`) of the attributes, and the same `last_changed`.
This is the value of `State.init` on those arguments; for a stored state the
id is valid and lowercase, so the construction cannot fail
(`State.copy_eq_init` below checks the correspondence). -/
def State.copy (s : State) (now : PyTime) : State :=
  { entity_id := pyLower s.entity_id
    state := s.state
    attributes := s.attributes
    last_updated := now
    last_changed := strip_microseconds s.last_changed }

/-- The entity-id grammar exactly as the spec words it: two non-empty words
of `[A-Za-z0-9_]+` separated by one dot, and nothing else. -/
def specEntityIdGrammar (s : String) : Bool := wordDotWord s.data

/-! ### Event type constants

Modelled from the spec: `homeassistant/const.py` is not under `src/`; the
spec's External Interfaces section lists the stable event-type strings, and
describes `MATCH_ALL` as a reserved sentinel event type distinct from them. -/

def EVENT_HOMEASSISTANT_START : String := "homeassistant_start"

def EVENT_HOMEASSISTANT_STOP : String := "homeassistant_stop"

def EVENT_STATE_CHANGED : String := "state_changed"

def EVENT_TIME_CHANGED : String := "time_changed"

def EVENT_CALL_SERVICE : String := "call_service"

def EVENT_SERVICE_EXECUTED : String := "service_executed"

def EVENT_SERVICE_REGISTERED : String := "service_registered"

def MATCH_ALL : String := "*"

/-- Modelled from the spec: reserved event-data attribute names. -/
def ATTR_DOMAIN : String := "domain"

def ATTR_SERVICE : String := "service"

def ATTR_SERVICE_CALL_ID : String := "service_call_id"

/-- `SERVICE_CALL_LIMIT`: how long `ServiceRegistry.call` waits for the
result of a blocking service call, in seconds. -/
def SERVICE_CALL_LIMIT : Nat := 10

/-! ### Job priorities -/

/-- `JobPriority`: the ordered enum of worker-pool priority bands. -/
inductive JobPriority where
  | EVENT_CALLBACK
  | EVENT_SERVICE
  | EVENT_STATE
  | EVENT_TIME
  | EVENT_DEFAULT
  deriving DecidableEq, Repr

/-- The numeric value of each band as declared in the source enum. -/
def JobPriority.value : JobPriority → Nat
  | .EVENT_CALLBACK => 0
  | .EVENT_SERVICE => 1
  | .EVENT_STATE => 2
  | .EVENT_TIME => 3
  | .EVENT_DEFAULT => 4

/-- `JobPriority.from_event_type`: priority derived from an event type,
testing the event-type constants in the source's order. -/
def JobPriority.from_event_type (event_type : String) : JobPriority :=
  if event_type = EVENT_TIME_CHANGED then .EVENT_TIME
  else if event_type = EVENT_STATE_CHANGED then .EVENT_STATE
  else if event_type = EVENT_CALL_SERVICE then .EVENT_SERVICE
  else if event_type = EVENT_SERVICE_EXECUTED then .EVENT_CALLBACK
  else .EVENT_DEFAULT

/-! ### Event bus

Listeners are Python callables compared by identity; they are modelled as
opaque numeric identities.  The listener table `_listeners` is an
insertion-ordered mapping from event type to the bucket of listeners
registered for it. -/

/-- Identity of a listener callable. -/
abbrev ListenerId := Nat

/-- The `EventBus._listeners` table. -/
abbrev LTable := List (String × List Nat)

/-- Bucket lookup (first match). -/
def LTable.find (tbl : LTable) (t : String) : Option (List Nat) :=
  match tbl with
  | [] => none
  | (t', b) :: rest => if t' = t then some b else LTable.find rest t

/-- `self._listeners.get(t, [])`. -/
def LTable.getD (tbl : LTable) (t : String) : List Nat :=
  (tbl.find t).getD []

/-- `EventBus.listen`: append to the bucket if the event type is present,
otherwise create a new singleton bucket. -/
def EventBus.listen (tbl : LTable) (t : String) (l : Nat) : LTable :=
  match tbl with
  | [] => [(t, [l])]
  | (t', b) :: rest =>
      if t' = t then (t', b ++ [l]) :: rest
      else (t', b) :: EventBus.listen rest t l

/-- `dict.pop(t)` on the listener table: drop the (unique) entry for `t`. -/
def LTable.popKey (tbl : LTable) (t : String) : LTable :=
  match tbl with
  | [] => []
  | (t', b) :: rest =>
      if t' = t then rest else (t', b) :: LTable.popKey rest t

/-- Replace the bucket stored under an existing key. -/
def LTable.setBucket (tbl : LTable) (t : String) (b : List Nat) : LTable :=
  match tbl with
  | [] => []
  | (t', b') :: rest =>
      if t' = t then (t', b) :: rest else (t', b') :: LTable.setBucket rest t b

/-- `list.remove(l)`: drop the first occurrence. -/
def removeFirst (b : List Nat) (l : Nat) : List Nat :=
  match b with
  | [] => []
  | x :: rest => if x = l then rest else x :: removeFirst rest l

/-- `EventBus.remove_listener`: remove the first identity-matching entry of
the event type's bucket and drop the bucket key if it became empty; a
`KeyError` (absent event type) or `ValueError` (absent listener) is caught,
leaving the table unchanged. -/
def EventBus.remove_listener (tbl : LTable) (t : String) (l : Nat) : LTable :=
  match tbl.find t with
  | none => tbl
  | some b =>
      if l ∈ b then
        let b' := removeFirst b l
        if b' = [] then tbl.popKey t else tbl.setBucket t b'
      else tbl

/-- A job handed to the worker pool by `EventBus.fire`: the priority and the
listener it will invoke (the `Event` argument is the same for every job of
one `fire` and is omitted from the job record). -/
abbrev Job := JobPriority × Nat

/-- `EventBus.fire`: under the lock, snapshot
`listeners.get(MATCH_ALL, []) + listeners.get(event_type, [])`; if the
snapshot is empty return no jobs, else enqueue one job per listener at the
priority derived from the event type. -/
def EventBus.fire (tbl : LTable) (event_type : String) : List Job :=
  let listeners := tbl.getD MATCH_ALL ++ tbl.getD event_type
  if listeners.isEmpty then []
  else
    let job_priority := JobPriority.from_event_type event_type
    listeners.map (fun l => (job_priority, l))

/-! ### State machine: `set`

`StateMachine.set` is modelled at value level: the `_states` dict maps the
lowercased entity id to the stored `State`, and the function returns the
updated dict together with the list of `state_changed` payloads it fired
through the bus (object identity is irrelevant to the mutation claims). -/

/-- The `event_data` of a `state_changed` event fired by `StateMachine.set`:
`{'entity_id': ..., 'new_state': ...}` plus `'old_state'` when a previous
state existed. -/
structure SCEvent where
  entity_id : String
  new_state : State
  old_state : Option State
  deriving DecidableEq, Repr

/-- The `StateMachine._states` dict. -/
abbrev States := List (String × State)

/-- First-match lookup in `_states`. -/
def States.find (m : States) (k : String) : Option State :=
  match m with
  | [] => none
  | (k', s) :: rest => if k' = k then some s else States.find rest k

/-- `self._states[entity_id] = state`: overwrite in place or append. -/
def States.insert (m : States) (k : String) (s : State) : States :=
  match m with
  | [] => [(k, s)]
  | (k', s') :: rest =>
      if k' = k then (k, s) :: rest else (k', s') :: States.insert rest k s

/-- `StateMachine.set`: lowercase the id, default the attributes, compare to
the prior state (attributes with Python's order-insensitive dict equality,
`pyDictEq`); when the `(state, attributes)` pair is new or different,
construct a new `State` (carrying the prior `last_changed` iff the state
string is unchanged), store it and fire one `state_changed` event whose data
holds `old_state` iff a prior state existed.  When the pair is identical,
change nothing and fire nothing.  `none` is the `InvalidEntityFormatError`
propagating out of the `State` constructor. -/
def StateMachine.set (states : States) (entity_id new_state : String)
    (attributes : Option Dict) (now : PyTime) :
    Option (States × List SCEvent) :=
  let entity_id := pyLower entity_id
  let attributes := attributes.getD []
  let old_state := states.find entity_id
  let same_state := old_state.any (fun o => o.state == new_state)
  let same_attr := old_state.any (fun o => pyDictEq o.attributes attributes)
  if !(same_state && same_attr) then
    let last_changed : Option PyTime :=
      if same_state then old_state.map (fun o => o.last_changed) else none
    match State.init entity_id new_state (some attributes) last_changed now with
    | none => none
    | some st =>
        some (states.insert entity_id st, [⟨entity_id, st, old_state⟩])
  else
    some (states, [])

/-! ### State machine: reads and aliasing

The read operations are about object identity (`copy` versus returning the
stored object), so here the stored `State`s live in an explicit heap and the
`_states` dict maps the entity id to the address of its live `State`. -/

/-- The heap of `State` objects, indexed by allocation order. -/
abbrev SHeap := List State

/-- Dereference an address (reads of a well-formed machine stay in range;
the default is irrelevant there). -/
def SHeap.getD (h : SHeap) (a : Nat) : State := List.getD h a default

/-- Allocate a fresh `State` object, returning its (fresh) address. -/
def SHeap.alloc (h : SHeap) (s : State) : SHeap × Nat :=
  (List.append h [s], List.length h)

/-- Mutate the object at an address in place. -/
def SHeap.write (h : SHeap) (a : Nat) (s : State) : SHeap := List.set h a s

/-- `_states` with reference semantics: entity id to address of live state. -/
abbrev SMap := List (String × Nat)

/-- First-match lookup in the reference-level `_states`. -/
def SMap.find (m : SMap) (k : String) : Option Nat :=
  match m with
  | [] => none
  | (k', a) :: rest => if k' = k then some a else SMap.find rest k

/-- `StateMachine.get`: look up the lowercased id and return `state.copy()`
— a freshly allocated copy — or `None`. -/
def StateMachine.get (h : SHeap) (m : SMap) (entity_id : String)
    (now : PyTime) : SHeap × Option Nat :=
  match m.find (pyLower entity_id) with
  | none => (h, none)
  | some a =>
      let alloc := h.alloc ((h.getD a).copy now)
      (alloc.1, some alloc.2)

/-- `StateMachine.all`: `state.copy()` for every stored state, in map
order. -/
def StateMachine.all (h : SHeap) (m : SMap) (now : PyTime) :
    SHeap × List Nat :=
  match m with
  | [] => (h, [])
  | (_, a) :: rest =>
      let alloc := h.alloc ((h.getD a).copy now)
      let tail := StateMachine.all alloc.1 rest now
      (tail.1, alloc.2 :: tail.2)

/-- `StateMachine.get_since`: strip microseconds from the cutoff and return
every stored state with `last_updated >= point_in_time` — the list
comprehension returns the stored objects themselves, without `copy()`. -/
def StateMachine.get_since (h : SHeap) (m : SMap) (point_in_time : PyTime) :
    List Nat :=
  let p := strip_microseconds point_in_time
  (m.filter (fun e => PyTime.le p ((h.getD e.2).last_updated))).map
    (fun e => e.2)

/-! ### One-time listeners -/

/-- The mutable closure state of the wrapper built by `EventBus.listen_once`:
`run` models `hasattr(onetime_listener, 'run')`, initially absent. -/
structure OnetimeGuard where
  run : Bool
  deriving DecidableEq, Repr

/-- The observable steps one invocation of the wrapper performs, in order. -/
inductive GuardAction where
  | removeSelf
  | callTarget
  deriving DecidableEq, Repr

/-- `EventBus.listen_once`: register the wrapper (identified by `gid`) as an
ordinary listener; its guard flag starts unset. -/
def EventBus.listen_once (tbl : LTable) (event_type : String) (gid : Nat) :
    LTable × OnetimeGuard :=
  (EventBus.listen tbl event_type gid, ⟨false⟩)

/-- One invocation of `onetime_listener`: if the `run` flag is not yet set,
set it, remove the wrapper from the bus, then invoke the target listener;
otherwise do nothing.  The returned action list records what happened, in
order. -/
def onetime_invoke (g : OnetimeGuard) (tbl : LTable) (event_type : String)
    (gid : Nat) : OnetimeGuard × LTable × List GuardAction :=
  if g.run then (g, tbl, [])
  else
    (⟨true⟩, EventBus.remove_listener tbl event_type gid,
      [GuardAction.removeSelf, GuardAction.callTarget])

/-- A sequence of `n` invocations of the same wrapper (e.g. several enqueued
copies of it executing one after another), concatenating the actions. -/
def onetime_invokes (g : OnetimeGuard) (tbl : LTable) (event_type : String)
    (gid : Nat) : Nat → OnetimeGuard × LTable × List GuardAction
  | 0 => (g, tbl, [])
  | n + 1 =>
      let step := onetime_invoke g tbl event_type gid
      let rest := onetime_invokes step.1 step.2.1 event_type gid n
      (rest.1, rest.2.1, step.2.2 ++ rest.2.2)

/-! ### State serialization -/

/-- Modelled from the spec: `homeassistant.util.datetime_to_str` is not
under `src/`; the spec says a timestamp serializes to an ISO-like string
that does not preserve microseconds, and that whole-second timestamps
round-trip.  The rendering of the whole-second part is opaque to every
claim, so it is modelled as the decimal seconds count. -/
def datetime_to_str (t : PyTime) : String := toString t.sec

/-- Modelled from the spec: `homeassistant.util.str_to_datetime`, the parse
inverse of `datetime_to_str` on whole-second timestamps; an unparseable
string yields no timestamp. -/
def str_to_datetime (s : String) : Option PyTime :=
  (s.toNat?).map (fun n => ⟨n, 0⟩)

/-- A JSON-ish value stored in the dict produced by `State.as_dict`. -/
inductive JVal where
  | str (v : String)
  | dict (v : Dict)
  deriving DecidableEq, Repr

/-- The dict handled by `State.as_dict` and `State.from_dict`. -/
abbrev JsonDict := List (String × JVal)

/-- First-match lookup, `json_dict.get(k)`. -/
def JsonDict.get (j : JsonDict) (k : String) : Option JVal :=
  match j with
  | [] => none
  | (k', v) :: rest => if k' = k then some v else JsonDict.get rest k

/-- `State.as_dict`: entity id, state, attributes, and `last_changed`
rendered by `datetime_to_str`; `last_updated` is not serialized. -/
def State.as_dict (st : State) : JsonDict :=
  [("entity_id", JVal.str st.entity_id),
   ("state", JVal.str st.state),
   ("attributes", JVal.dict st.attributes),
   ("last_changed", JVal.str (datetime_to_str st.last_changed))]

/-- `State.from_dict`: `None` unless the dict is truthy and has the
`entity_id` and `state` keys; parse `last_changed` when present and truthy;
then call the `State` constructor.  The early `return None`, a non-string
where a string is required, and a constructor failure all collapse to
`none`. -/
def State.from_dict (json_dict : JsonDict) (now : PyTime) : Option State :=
  match json_dict.get "entity_id", json_dict.get "state" with
  | some (JVal.str entity_id), some (JVal.str state) =>
      let attributes : Option Dict :=
        match json_dict.get "attributes" with
        | some (JVal.dict d) => some d
        | _ => none
      let last_changed : Option PyTime :=
        match json_dict.get "last_changed" with
        | some (JVal.str lc) => if lc = "" then none else str_to_datetime lc
        | _ => none
      State.init entity_id state attributes last_changed now
  | _, _ => none

/-! ### Service registry

`ServiceRegistry.call` mutates the caller-supplied `service_data` dict in
place, so dicts live in an explicit heap; `service_data` is passed as the
address of the caller's dict.  The outcome of the 10-second wait on the
completion gate (`executed_event.wait(SERVICE_CALL_LIMIT)`) is abstracted
as the boolean input `signalled`; the temporary `service_executed` closure
is identified by the fresh listener identity `service_executed_id`. -/

/-- The heap of dict objects, indexed by allocation order. -/
abbrev DHeap := List Dict

/-- Dereference a dict address. -/
def DHeap.getD (h : DHeap) (a : Nat) : Dict := List.getD h a []

/-- Allocate a fresh dict object, returning its (fresh) address. -/
def DHeap.alloc (h : DHeap) (d : Dict) : DHeap × Nat :=
  (List.append h [d], List.length h)

/-- Mutate the dict at an address in place. -/
def DHeap.write (h : DHeap) (a : Nat) (d : Dict) : DHeap := List.set h a d

/-- The registry's own mutable fields: `id(self)` (an instance-unique
nonce) and the `_cur_id` counter. -/
structure ServiceRegistry where
  nonce : Nat
  cur_id : Nat
  deriving DecidableEq, Repr

/-- `ServiceRegistry._generate_unique_id`: increment `_cur_id` and render
`"{id(self)}-{cur_id}"`. -/
def ServiceRegistry.generate_unique_id (r : ServiceRegistry) :
    ServiceRegistry × String :=
  let n := r.cur_id + 1
  ({ r with cur_id := n }, toString r.nonce ++ "-" ++ toString n)

/-- `Event.__init__`'s `self.data = data or {}`: a falsy (absent or empty)
data dict is replaced by a fresh empty dict, a non-empty one is shared. -/
def Event.dataAddr (h : DHeap) (event_data : Option Nat) : DHeap × Nat :=
  match event_data with
  | some a => if h.getD a = [] then h.alloc [] else (h, a)
  | none => h.alloc []

/-- The outcome of `ServiceRegistry.call`: updated registry fields, bus
listener table and dict heap, the Python return value (`none` = `None`),
and the events fired as (type, data-dict address) pairs. -/
structure CallResult where
  reg : ServiceRegistry
  bus : LTable
  heap : DHeap
  ret : Option Bool
  fired : List (String × Nat)
  deriving DecidableEq, Repr

/-- `ServiceRegistry.call`: allocate a call id; let `event_data` be the
caller's `service_data` dict when truthy, else a fresh empty dict; write
`domain`, `service` and `service_call_id` into it; when blocking, register
the temporary `service_executed` listener; fire `call_service` with that
dict; when blocking, return `True` if the gate was signalled within
`SERVICE_CALL_LIMIT`, else remove the temporary listener and return
`False`; when non-blocking, return `None`. -/
def ServiceRegistry.call (reg : ServiceRegistry) (bus : LTable) (heap : DHeap)
    (domain service : String) (service_data : Option Nat) (blocking : Bool)
    (service_executed_id : Nat) (signalled : Bool) : CallResult :=
  let gen := reg.generate_unique_id
  let reg := gen.1
  let call_id := gen.2
  let hd : DHeap × Nat :=
    match service_data with
    | some a => if heap.getD a = [] then heap.alloc [] else (heap, a)
    | none => heap.alloc []
  let heap := hd.1
  let dataAddr := hd.2
  let heap := heap.write dataAddr
      (pyInsert (pyInsert (pyInsert (heap.getD dataAddr) ATTR_DOMAIN domain)
        ATTR_SERVICE service) ATTR_SERVICE_CALL_ID call_id)
  let bus :=
    if blocking then EventBus.listen bus EVENT_SERVICE_EXECUTED service_executed_id
    else bus
  let he := Event.dataAddr heap (some dataAddr)
  let heap := he.1
  let fired := [(EVENT_CALL_SERVICE, he.2)]
  if blocking then
    if signalled then ⟨reg, bus, heap, some true, fired⟩
    else
      ⟨reg, EventBus.remove_listener bus EVENT_SERVICE_EXECUTED service_executed_id,
        heap, some false, fired⟩
  else ⟨reg, bus, heap, none, fired⟩

/-! ## Helper lemmas -/

theorem char_ofNat_toNat (n : Nat) (hv : n.isValidChar) :
    (Char.ofNat n).toNat = n := by
  rw [Char.ofNat, dif_pos hv]
  rfl

theorem uint32_le_iff (a b : UInt32) : a ≤ b ↔ a.toNat ≤ b.toNat := by
  rw [UInt32.le_def, BitVec.le_def]
  rfl

theorem char_eq_iff_toNat (a b : Char) : a = b ↔ a.toNat = b.toNat := by
  constructor
  · intro h
    rw [h]
  · intro h
    apply Char.ext
    exact UInt32.toNat.inj h

theorem pyWordChar_iff (c : Char) :
    pyWordChar c = true ↔
      ((65 ≤ c.toNat ∧ c.toNat ≤ 90) ∨ (97 ≤ c.toNat ∧ c.toNat ≤ 122) ∨
        (48 ≤ c.toNat ∧ c.toNat ≤ 57) ∨ c.toNat = 95) := by
  simp only [pyWordChar, Char.isAlphanum, Char.isAlpha, Char.isUpper, Char.isLower,
    Char.isDigit, Bool.or_eq_true, Bool.and_eq_true, decide_eq_true_eq, beq_iff_eq,
    ge_iff_le, uint32_le_iff, char_eq_iff_toNat]
  have h95 : '_'.toNat = 95 := rfl
  rw [h95]
  tauto

theorem pyLowerChar_wordChar (c : Char) :
    pyWordChar (pyLowerChar c) = pyWordChar c := by
  unfold pyLowerChar
  by_cases h : 65 ≤ c.toNat ∧ c.toNat ≤ 90
  · rw [if_pos h]
    have hv : (c.toNat + 32).isValidChar := Or.inl (by omega)
    have ht := char_ofNat_toNat (c.toNat + 32) hv
    rw [Bool.eq_iff_iff, pyWordChar_iff, pyWordChar_iff, ht]
    omega
  · rw [if_neg h]

theorem pyLowerChar_dot (c : Char) : pyLowerChar c = '.' ↔ c = '.' := by
  unfold pyLowerChar
  by_cases h : 65 ≤ c.toNat ∧ c.toNat ≤ 90
  · rw [if_pos h]
    have hv : (c.toNat + 32).isValidChar := Or.inl (by omega)
    have ht := char_ofNat_toNat (c.toNat + 32) hv
    rw [char_eq_iff_toNat, char_eq_iff_toNat, ht]
    have hd : '.'.toNat = 46 := rfl
    rw [hd]
    omega
  · rw [if_neg h]

theorem pyLowerChar_newline (c : Char) : pyLowerChar c = '\n' ↔ c = '\n' := by
  unfold pyLowerChar
  by_cases h : 65 ≤ c.toNat ∧ c.toNat ≤ 90
  · rw [if_pos h]
    have hv : (c.toNat + 32).isValidChar := Or.inl (by omega)
    have ht := char_ofNat_toNat (c.toNat + 32) hv
    rw [char_eq_iff_toNat, char_eq_iff_toNat, ht]
    have hd : '\n'.toNat = 10 := rfl
    rw [hd]
    omega
  · rw [if_neg h]

theorem wordChar_comp : pyWordChar ∘ pyLowerChar = pyWordChar :=
  funext pyLowerChar_wordChar

theorem isEmpty_map (f : Char → Char) (l : List Char) :
    (l.map f).isEmpty = l.isEmpty := by
  cases l <;> rfl

theorem headD_map_dot (rest : List Char) :
    ((rest.map pyLowerChar).headD ' ' == '.') = (rest.headD ' ' == '.') := by
  cases rest with
  | nil => rfl
  | cons c t =>
      simp only [List.map_cons, List.headD_cons]
      rw [Bool.eq_iff_iff]
      simp only [beq_iff_eq]
      exact pyLowerChar_dot c

theorem wordDotWord_map_lower (cs : List Char) :
    wordDotWord (cs.map pyLowerChar) = wordDotWord cs := by
  unfold wordDotWord
  dsimp only
  rw [List.takeWhile_map, List.dropWhile_map, wordChar_comp, isEmpty_map,
    headD_map_dot, ← List.map_tail, isEmpty_map, List.all_map, wordChar_comp]

theorem entityIdMatch_lower (s : String) :
    entityIdMatch (pyLower s) = entityIdMatch s := by
  unfold entityIdMatch pyLower
  simp only [List.getLast?_map]
  cases hl : s.data.getLast? with
  | none =>
      rw [if_neg (by simp), if_neg (by simp)]
      exact wordDotWord_map_lower s.data
  | some c =>
      by_cases hc : c = '\n'
      · subst hc
        have hn : pyLowerChar '\n' = '\n' := (pyLowerChar_newline '\n').mpr rfl
        rw [show (some '\n').map pyLowerChar = some '\n' by
            rw [Option.map_some', hn],
          if_pos rfl, if_pos rfl, ← List.map_dropLast]
        exact wordDotWord_map_lower _
      · have h2 : pyLowerChar c ≠ '\n' := fun h => hc ((pyLowerChar_newline c).mp h)
        rw [if_neg (by simp [h2]), if_neg (by simp [hc])]
        exact wordDotWord_map_lower s.data

theorem State.copy_eq_init (s : State) (now : PyTime)
    (h : entityIdMatch s.entity_id = true) :
    State.init s.entity_id s.state (some s.attributes) (some s.last_changed) now
      = some (State.copy s now) := by
  simp [State.init, State.copy, h]

/-- C3 counterexample: the string "a.b\n" does not match the spec's
`<word>.<word>` grammar, yet the `State` constructor accepts it (Python's
`$` matches before a trailing newline), storing the id unchanged. -/
theorem C3_counterexample :
    specEntityIdGrammar "a.b\n" = false
    ∧ State.init "a.b\n" "on" none none ⟨0, 0⟩
        = some ⟨"a.b\n", "on", [], ⟨0, 0⟩, ⟨0, 0⟩⟩ := by
  constructor
  · rfl
  · rfl

/-- C3 (amended): for an entity id made of ASCII characters — where the
model's `\w` and `lower()` coincide with Python's — constructing a `State`
fails exactly when the id fails `ENTITY_ID_PATTERN`, whose language is
`<word>.<word>` optionally followed by one trailing newline; on success the
stored entity id is the lowercased input and itself still matches the
pattern.  Non-ASCII ids (accepted by Python's Unicode `\w`) are outside
this statement. -/
theorem C3_entity_id_validation (entity_id state : String)
    (attributes : Option Dict) (last_changed : Option PyTime) (now : PyTime)
    (hascii : ∀ c ∈ entity_id.data, c.toNat ≤ 127) :
    (State.init entity_id state attributes last_changed now = none ↔
      entityIdMatch entity_id = false)
    ∧ (∀ st, State.init entity_id state attributes last_changed now = some st →
        st.entity_id = pyLower entity_id ∧ entityIdMatch st.entity_id = true) := by
  unfold State.init
  by_cases h : entityIdMatch entity_id = true
  · rw [if_pos h]
    constructor
    · simp [h]
    · intro st hst
      cases hst
      exact ⟨rfl, by rw [entityIdMatch_lower, h]⟩
  · rw [if_neg h]
    constructor
    · simp [Bool.not_eq_true] at h
      simp [h]
    · intro st hst
      cases hst

theorem C3_witness :
    State.init "Light.Kitchen" "on" none none ⟨3, 5⟩
        = some ⟨"light.kitchen", "on", [], ⟨3, 0⟩, ⟨3, 5⟩⟩
    ∧ ("light.kitchen" : String) = pyLower "Light.Kitchen"
    ∧ entityIdMatch "light.kitchen" = true := by
  have hsome : State.init "Light.Kitchen" "on" none none ⟨3, 5⟩
      = some ⟨"light.kitchen", "on", [], ⟨3, 0⟩, ⟨3, 5⟩⟩ := by rfl
  have h := (C3_entity_id_validation "Light.Kitchen" "on" none none ⟨3, 5⟩
      (by decide)).2
    ⟨"light.kitchen", "on", [], ⟨3, 0⟩, ⟨3, 5⟩⟩ hsome
  exact ⟨hsome, h.1, h.2⟩

theorem set_noop (states : States) (entity_id new_state : String)
    (attributes : Option Dict) (now : PyTime) (o : State)
    (hfind : states.find (pyLower entity_id) = some o)
    (hs : o.state = new_state)
    (ha : pyDictEq o.attributes (attributes.getD []) = true) :
    StateMachine.set states entity_id new_state attributes now
      = some (states, []) := by
  unfold StateMachine.set
  dsimp only
  rw [hfind]
  simp [hs, ha]

theorem set_new (states : States) (entity_id new_state : String)
    (attributes : Option Dict) (now : PyTime)
    (hvalid : entityIdMatch (pyLower entity_id) = true)
    (hnone : states.find (pyLower entity_id) = none) :
    StateMachine.set states entity_id new_state attributes now
      = some (states.insert (pyLower entity_id)
            ⟨pyLower (pyLower entity_id), new_state, attributes.getD [],
              strip_microseconds now, now⟩,
          [⟨pyLower entity_id,
            ⟨pyLower (pyLower entity_id), new_state, attributes.getD [],
              strip_microseconds now, now⟩, none⟩]) := by
  unfold StateMachine.set State.init
  dsimp only
  rw [hnone]
  simp [hvalid]

theorem set_diff_state (states : States) (entity_id new_state : String)
    (attributes : Option Dict) (now : PyTime) (o : State)
    (hvalid : entityIdMatch (pyLower entity_id) = true)
    (hfind : states.find (pyLower entity_id) = some o)
    (hs : o.state ≠ new_state) :
    StateMachine.set states entity_id new_state attributes now
      = some (states.insert (pyLower entity_id)
            ⟨pyLower (pyLower entity_id), new_state, attributes.getD [],
              strip_microseconds now, now⟩,
          [⟨pyLower entity_id,
            ⟨pyLower (pyLower entity_id), new_state, attributes.getD [],
              strip_microseconds now, now⟩, some o⟩]) := by
  unfold StateMachine.set State.init
  dsimp only
  rw [hfind]
  simp [hs, hvalid]

theorem set_same_state_diff_attr (states : States)
    (entity_id new_state : String)
    (attributes : Option Dict) (now : PyTime) (o : State)
    (hvalid : entityIdMatch (pyLower entity_id) = true)
    (hfind : states.find (pyLower entity_id) = some o)
    (hs : o.state = new_state)
    (ha : pyDictEq o.attributes (attributes.getD []) = false) :
    StateMachine.set states entity_id new_state attributes now
      = some (states.insert (pyLower entity_id)
            ⟨pyLower (pyLower entity_id), new_state, attributes.getD [],
              strip_microseconds o.last_changed, now⟩,
          [⟨pyLower entity_id,
            ⟨pyLower (pyLower entity_id), new_state, attributes.getD [],
              strip_microseconds o.last_changed, now⟩, some o⟩]) := by
  unfold StateMachine.set State.init
  dsimp only
  rw [hfind]
  simp [hs, ha, hvalid]

theorem strip_of_usec_zero (t : PyTime) (h : t.usec = 0) :
    strip_microseconds t = t := by
  cases t
  subst h
  rfl

/-- C1: a `set` whose `(state, attributes)` pair is absent or different
replaces the stored entry and fires exactly one `state_changed` event whose
data holds the entity id and the new state, and the old state iff one
existed; an identical pair leaves the map unchanged and fires nothing. -/
theorem C1_set_change_or_noop (states : States) (entity_id new_state : String)
    (attributes : Option Dict) (now : PyTime)
    (hvalid : entityIdMatch (pyLower entity_id) = true) :
    (∀ o, states.find (pyLower entity_id) = some o → o.state = new_state →
        pyDictEq o.attributes (attributes.getD []) = true →
        StateMachine.set states entity_id new_state attributes now
          = some (states, []))
    ∧ ((states.find (pyLower entity_id) = none
          ∨ ∃ o, states.find (pyLower entity_id) = some o
              ∧ (o.state ≠ new_state
                 ∨ pyDictEq o.attributes (attributes.getD []) = false)) →
        ∃ st, StateMachine.set states entity_id new_state attributes now
            = some (states.insert (pyLower entity_id) st,
                [⟨pyLower entity_id, st, states.find (pyLower entity_id)⟩])) := by
  constructor
  · intro o hfind hs ha
    exact set_noop states entity_id new_state attributes now o hfind hs ha
  · intro h
    rcases h with hnone | ⟨o, hfind, hdiff⟩
    · rw [hnone]
      exact ⟨_, set_new states entity_id new_state attributes now hvalid hnone⟩
    · rw [hfind]
      by_cases hs : o.state = new_state
      · rcases hdiff with hs2 | ha
        · exact absurd hs hs2
        · exact ⟨_, set_same_state_diff_attr states entity_id new_state
            attributes now o hvalid hfind hs ha⟩
      · exact ⟨_, set_diff_state states entity_id new_state attributes now o
          hvalid hfind hs⟩

theorem C1_witness :
    StateMachine.set
        [("light.a",
          ⟨"light.a", "on", [("a", "1"), ("b", "2")], ⟨1, 0⟩, ⟨1, 0⟩⟩)]
        "light.a" "on" (some [("b", "2"), ("a", "1")]) ⟨2, 7⟩
      = some ([("light.a",
          ⟨"light.a", "on", [("a", "1"), ("b", "2")], ⟨1, 0⟩, ⟨1, 0⟩⟩)], []) :=
  (C1_set_change_or_noop _ "light.a" "on" (some [("b", "2"), ("a", "1")])
      ⟨2, 7⟩ (by decide)).1
    ⟨"light.a", "on", [("a", "1"), ("b", "2")], ⟨1, 0⟩, ⟨1, 0⟩⟩ (by decide)
    rfl (by decide)

/-- C2: a changing `set` that keeps the state string but changes the
attributes carries the prior `last_changed` forward unchanged; every other
changing `set` stamps `last_changed` with the current time truncated to
whole seconds; `last_updated` is always the current time. -/
theorem C2_set_timestamps (states : States) (entity_id new_state : String)
    (attributes : Option Dict) (now : PyTime)
    (hvalid : entityIdMatch (pyLower entity_id) = true) :
    (∀ o, states.find (pyLower entity_id) = some o → o.state = new_state →
        pyDictEq o.attributes (attributes.getD []) = false →
        o.last_changed.usec = 0 →
        ∃ st, StateMachine.set states entity_id new_state attributes now
            = some (states.insert (pyLower entity_id) st,
                [⟨pyLower entity_id, st, some o⟩])
          ∧ st.last_changed = o.last_changed ∧ st.last_updated = now)
    ∧ (states.find (pyLower entity_id) = none →
        ∃ st, StateMachine.set states entity_id new_state attributes now
            = some (states.insert (pyLower entity_id) st,
                [⟨pyLower entity_id, st, none⟩])
          ∧ st.last_changed = strip_microseconds now ∧ st.last_updated = now)
    ∧ (∀ o, states.find (pyLower entity_id) = some o → o.state ≠ new_state →
        ∃ st, StateMachine.set states entity_id new_state attributes now
            = some (states.insert (pyLower entity_id) st,
                [⟨pyLower entity_id, st, some o⟩])
          ∧ st.last_changed = strip_microseconds now
          ∧ st.last_updated = now) := by
  refine ⟨?_, ?_, ?_⟩
  · intro o hfind hs ha husec
    refine ⟨_, set_same_state_diff_attr states entity_id new_state attributes
      now o hvalid hfind hs ha, ?_, rfl⟩
    exact strip_of_usec_zero o.last_changed husec
  · intro hnone
    exact ⟨_, set_new states entity_id new_state attributes now hvalid hnone,
      rfl, rfl⟩
  · intro o hfind hs
    exact ⟨_, set_diff_state states entity_id new_state attributes now o
      hvalid hfind hs, rfl, rfl⟩

theorem C2_witness :
    (StateMachine.set
        [("light.a", ⟨"light.a", "on", [("bri", "1")], ⟨1, 0⟩, ⟨1, 0⟩⟩)]
        "light.a" "on" (some [("bri", "2")]) ⟨9, 5⟩).map
      (fun r => r.2.map
        (fun e => (e.new_state.last_changed, e.new_state.last_updated)))
      = some [((⟨1, 0⟩ : PyTime), (⟨9, 5⟩ : PyTime))] := by
  obtain ⟨st, h1, h2, h3⟩ := (C2_set_timestamps
      [("light.a", ⟨"light.a", "on", [("bri", "1")], ⟨1, 0⟩, ⟨1, 0⟩⟩)]
      "light.a" "on" (some [("bri", "2")]) ⟨9, 5⟩ (by decide)).1
    ⟨"light.a", "on", [("bri", "1")], ⟨1, 0⟩, ⟨1, 0⟩⟩ (by decide) rfl
    (by decide) rfl
  rw [h1]
  simp [h2, h3]

theorem fire_eq_map (tbl : LTable) (event_type : String) :
    EventBus.fire tbl event_type
      = (tbl.getD MATCH_ALL ++ tbl.getD event_type).map
          (fun l => (JobPriority.from_event_type event_type, l)) := by
  unfold EventBus.fire
  dsimp only
  cases h : tbl.getD MATCH_ALL ++ tbl.getD event_type with
  | nil => rfl
  | cons a l => rfl

/-- C4: one `fire` enqueues exactly one job per listener of the snapshot
`listeners[MATCH_ALL] ++ listeners[event_type]` taken from the table at
fire time, `MATCH_ALL` bucket first, each bucket in registration order, all
at the priority derived from the event type with the documented numeric
bands. -/
theorem C4_fire_dispatch (tbl : LTable) (event_type : String) :
    EventBus.fire tbl event_type
      = (tbl.getD MATCH_ALL ++ tbl.getD event_type).map
          (fun l => (JobPriority.from_event_type event_type, l))
    ∧ (JobPriority.from_event_type EVENT_SERVICE_EXECUTED).value = 0
    ∧ (JobPriority.from_event_type EVENT_CALL_SERVICE).value = 1
    ∧ (JobPriority.from_event_type EVENT_STATE_CHANGED).value = 2
    ∧ (JobPriority.from_event_type EVENT_TIME_CHANGED).value = 3
    ∧ (∀ t, t ≠ EVENT_SERVICE_EXECUTED → t ≠ EVENT_CALL_SERVICE →
        t ≠ EVENT_STATE_CHANGED → t ≠ EVENT_TIME_CHANGED →
        (JobPriority.from_event_type t).value = 4) := by
  refine ⟨fire_eq_map tbl event_type, rfl, rfl, rfl, rfl, ?_⟩
  intro t h1 h2 h3 h4
  unfold JobPriority.from_event_type
  rw [if_neg h4, if_neg h3, if_neg h2, if_neg h1]
  rfl

theorem C4_witness :
    EventBus.fire [(MATCH_ALL, [7]), ("custom", [1, 2])] "custom"
      = [(JobPriority.EVENT_DEFAULT, 7), (JobPriority.EVENT_DEFAULT, 1),
         (JobPriority.EVENT_DEFAULT, 2)]
    ∧ (JobPriority.from_event_type "custom").value = 4 := by
  have h := C4_fire_dispatch [(MATCH_ALL, [7]), ("custom", [1, 2])] "custom"
  refine ⟨?_, h.2.2.2.2.2 "custom" (by decide) (by decide) (by decide)
    (by decide)⟩
  rw [h.1]
  rfl

theorem find_none_of_not_key (tbl : LTable) (t : String)
    (h : t ∉ tbl.map Prod.fst) : tbl.find t = none := by
  induction tbl with
  | nil => rfl
  | cons p rest ih =>
      obtain ⟨t2, b⟩ := p
      simp only [List.map_cons, List.mem_cons] at h
      push_neg at h
      simp only [LTable.find, if_neg (fun he : t2 = t => h.1 he.symm)]
      exact ih h.2

theorem find_listen_self (tbl : LTable) (t : String) (l : Nat) :
    (EventBus.listen tbl t l).find t = some (tbl.getD t ++ [l]) := by
  induction tbl with
  | nil => simp [EventBus.listen, LTable.find, LTable.getD]
  | cons p rest ih =>
      obtain ⟨t2, b⟩ := p
      by_cases h : t2 = t
      · subst h
        simp [EventBus.listen, LTable.find, LTable.getD]
      · simp only [EventBus.listen, LTable.find, LTable.getD, if_neg h]
        exact ih

theorem find_listen_ne (tbl : LTable) (t t2 : String) (l : Nat)
    (h : t2 ≠ t) : (EventBus.listen tbl t l).find t2 = tbl.find t2 := by
  induction tbl with
  | nil =>
      simp only [EventBus.listen, LTable.find,
        if_neg (fun he : t = t2 => h he.symm)]
  | cons p rest ih =>
      obtain ⟨t3, b⟩ := p
      by_cases h3 : t3 = t
      · subst h3
        simp only [EventBus.listen, if_pos rfl, LTable.find,
          if_neg (fun he : t3 = t2 => h he.symm)]
      · simp only [EventBus.listen, if_neg h3, LTable.find]
        by_cases h32 : t3 = t2
        · rw [if_pos h32, if_pos h32]
        · rw [if_neg h32, if_neg h32]
          exact ih

theorem find_popKey_self (tbl : LTable) (t : String)
    (hnd : (tbl.map Prod.fst).Nodup) : (tbl.popKey t).find t = none := by
  induction tbl with
  | nil => rfl
  | cons p rest ih =>
      obtain ⟨t2, b⟩ := p
      simp only [List.map_cons, List.nodup_cons] at hnd
      by_cases h : t2 = t
      · subst h
        simp only [LTable.popKey, if_pos rfl]
        exact find_none_of_not_key rest t2 hnd.1
      · simp only [LTable.popKey, if_neg h, LTable.find, if_neg h]
        exact ih hnd.2

theorem find_popKey_ne (tbl : LTable) (t t2 : String) (h : t2 ≠ t) :
    (tbl.popKey t).find t2 = tbl.find t2 := by
  induction tbl with
  | nil => rfl
  | cons p rest ih =>
      obtain ⟨t3, b⟩ := p
      by_cases h3 : t3 = t
      · subst h3
        simp only [LTable.popKey, eq_self_iff_true, if_true, LTable.find,
          if_neg (fun he : t3 = t2 => h he.symm)]
      · simp only [LTable.popKey, if_neg h3, LTable.find]
        by_cases h32 : t3 = t2
        · rw [if_pos h32, if_pos h32]
        · rw [if_neg h32, if_neg h32]
          exact ih

theorem find_setBucket_self (tbl : LTable) (t : String) (b b0 : List Nat)
    (hf : tbl.find t = some b0) : (tbl.setBucket t b).find t = some b := by
  induction tbl with
  | nil => cases hf
  | cons p rest ih =>
      obtain ⟨t2, b2⟩ := p
      by_cases h : t2 = t
      · subst h
        simp only [LTable.setBucket, eq_self_iff_true, if_true, LTable.find]
      · simp only [LTable.find, if_neg h] at hf
        simp only [LTable.setBucket, if_neg h, LTable.find, if_neg h]
        exact ih hf

theorem find_setBucket_ne (tbl : LTable) (t t2 : String) (b : List Nat)
    (h : t2 ≠ t) : (tbl.setBucket t b).find t2 = tbl.find t2 := by
  induction tbl with
  | nil => rfl
  | cons p rest ih =>
      obtain ⟨t3, b3⟩ := p
      by_cases h3 : t3 = t
      · subst h3
        simp only [LTable.setBucket, if_pos rfl, LTable.find,
          if_neg (fun he : t3 = t2 => h he.symm)]
      · simp only [LTable.setBucket, if_neg h3, LTable.find]
        by_cases h32 : t3 = t2
        · rw [if_pos h32, if_pos h32]
        · rw [if_neg h32, if_neg h32]
          exact ih

theorem remove_getD_self (tbl : LTable) (t : String) (l : Nat)
    (hnd : (tbl.map Prod.fst).Nodup) :
    (EventBus.remove_listener tbl t l).getD t
      = if l ∈ tbl.getD t then removeFirst (tbl.getD t) l else tbl.getD t := by
  unfold EventBus.remove_listener
  have hg : tbl.getD t = (tbl.find t).getD [] := rfl
  cases hf : tbl.find t with
  | none =>
      dsimp only
      rw [hg, hf]
      simp only [Option.getD_none, List.not_mem_nil, if_false]
  | some b =>
      dsimp only
      rw [hg, hf]
      simp only [Option.getD_some]
      by_cases hm : l ∈ b
      · rw [if_pos hm, if_pos hm]
        by_cases he : removeFirst b l = []
        · rw [if_pos he, he]
          simp only [LTable.getD, find_popKey_self tbl t hnd, Option.getD_none]
        · rw [if_neg he]
          simp only [LTable.getD, find_setBucket_self tbl t _ b hf,
            Option.getD_some]
      · rw [if_neg hm, if_neg hm]
        simp only [LTable.getD, hf, Option.getD_some]

theorem remove_getD_ne (tbl : LTable) (t t2 : String) (l : Nat) (h : t2 ≠ t) :
    (EventBus.remove_listener tbl t l).getD t2 = tbl.getD t2 := by
  unfold EventBus.remove_listener
  cases hf : tbl.find t with
  | none => rfl
  | some b =>
      dsimp only
      by_cases hm : l ∈ b
      · rw [if_pos hm]
        by_cases he : removeFirst b l = []
        · rw [if_pos he]
          simp only [LTable.getD, find_popKey_ne tbl t t2 h]
        · rw [if_neg he]
          simp only [LTable.getD, find_setBucket_ne tbl t t2 _ h]
      · rw [if_neg hm]

theorem removeFirst_append_self (xs : List Nat) (l : Nat) (h : l ∉ xs) :
    removeFirst (xs ++ [l]) l = xs := by
  induction xs with
  | nil => simp [removeFirst]
  | cons x rest ih =>
      simp only [List.mem_cons] at h
      push_neg at h
      simp only [List.cons_append, removeFirst,
        if_neg (fun he : x = l => h.1 he.symm), List.append_eq]
      rw [ih h.2]

theorem keys_listen_subset (tbl : LTable) (t : String) (l : Nat) (x : String)
    (hx : x ∈ (EventBus.listen tbl t l).map Prod.fst) :
    x ∈ tbl.map Prod.fst ∨ x = t := by
  induction tbl with
  | nil =>
      simp only [EventBus.listen, List.map_cons, List.map_nil,
        List.mem_singleton] at hx
      exact Or.inr hx
  | cons p rest ih =>
      obtain ⟨t2, b⟩ := p
      by_cases h : t2 = t
      · subst h
        simp only [EventBus.listen, eq_self_iff_true, if_true] at hx
        simp only [List.map_cons, List.mem_cons] at hx ⊢
        tauto
      · simp only [EventBus.listen, if_neg h] at hx
        simp only [List.map_cons, List.mem_cons] at hx ⊢
        rcases hx with hx | hx
        · exact Or.inl (Or.inl hx)
        · rcases ih hx with h2 | h2
          · exact Or.inl (Or.inr h2)
          · exact Or.inr h2

theorem nodup_listen (tbl : LTable) (t : String) (l : Nat)
    (hnd : (tbl.map Prod.fst).Nodup) :
    ((EventBus.listen tbl t l).map Prod.fst).Nodup := by
  induction tbl with
  | nil => simp [EventBus.listen]
  | cons p rest ih =>
      obtain ⟨t2, b⟩ := p
      simp only [List.map_cons, List.nodup_cons] at hnd
      by_cases h : t2 = t
      · subst h
        simp only [EventBus.listen, eq_self_iff_true, if_true, List.map_cons,
          List.nodup_cons]
        exact hnd
      · simp only [EventBus.listen, if_neg h, List.map_cons, List.nodup_cons]
        refine ⟨fun hx => ?_, ih hnd.2⟩
        rcases keys_listen_subset rest t l t2 hx with h2 | h2
        · exact hnd.1 h2
        · exact h h2

theorem listen_remove_getD (tbl : LTable) (t : String) (l : Nat)
    (hnd : (tbl.map Prod.fst).Nodup) (hl : l ∉ tbl.getD t) :
    (EventBus.remove_listener (EventBus.listen tbl t l) t l).getD t
      = tbl.getD t := by
  have h1 : (EventBus.listen tbl t l).getD t = tbl.getD t ++ [l] := by
    simp only [LTable.getD, find_listen_self tbl t l, Option.getD_some]
  rw [remove_getD_self _ t l (nodup_listen tbl t l hnd), h1,
    if_pos (by simp), removeFirst_append_self _ l hl]

/-- C9: `remove_listener` removes the first identity-matching entry of the
event type's bucket, drops the bucket key when it empties, and is a silent
no-op when the event type or the listener is absent; after `listen` then
`remove_listener` the next `fire` of that type enqueues no job for that
listener. -/
theorem C9_remove_listener (tbl : LTable) (t : String) (l : Nat)
    (hnd : (tbl.map Prod.fst).Nodup) :
    (tbl.find t = none → EventBus.remove_listener tbl t l = tbl)
    ∧ (∀ b, tbl.find t = some b → l ∉ b →
        EventBus.remove_listener tbl t l = tbl)
    ∧ (∀ b, tbl.find t = some b → l ∈ b →
        (EventBus.remove_listener tbl t l).getD t = removeFirst b l
        ∧ (removeFirst b l = [] →
            (EventBus.remove_listener tbl t l).find t = none))
    ∧ (l ∉ tbl.getD t → l ∉ tbl.getD MATCH_ALL →
        ∀ j ∈ EventBus.fire
            (EventBus.remove_listener (EventBus.listen tbl t l) t l) t,
          j.2 ≠ l) := by
  refine ⟨?_, ?_, ?_, ?_⟩
  · intro hf
    unfold EventBus.remove_listener
    rw [hf]
  · intro b hf hm
    unfold EventBus.remove_listener
    rw [hf]
    dsimp only
    rw [if_neg hm]
  · intro b hf hm
    constructor
    · rw [remove_getD_self tbl t l hnd]
      have hg : tbl.getD t = b := by simp [LTable.getD, hf]
      rw [hg, if_pos hm]
    · intro he
      unfold EventBus.remove_listener
      rw [hf]
      dsimp only
      rw [if_pos hm, if_pos he]
      exact find_popKey_self tbl t hnd
  · intro h1 h2 j hj
    rw [fire_eq_map, List.mem_map] at hj
    obtain ⟨x, hx, hxe⟩ := hj
    intro hle
    have hxl : x = l := by
      rw [← hxe] at hle
      exact hle
    rw [hxl, List.mem_append] at hx
    rcases hx with hx | hx
    · by_cases hMt : MATCH_ALL = t
      · rw [hMt, listen_remove_getD tbl t l hnd h1] at hx
        exact h1 hx
      · rw [remove_getD_ne _ t MATCH_ALL l hMt] at hx
        have hge : (EventBus.listen tbl t l).getD MATCH_ALL
            = tbl.getD MATCH_ALL := by
          show ((EventBus.listen tbl t l).find MATCH_ALL).getD [] = _
          rw [find_listen_ne tbl t MATCH_ALL l hMt]
          rfl
        rw [hge] at hx
        exact h2 hx
    · rw [listen_remove_getD tbl t l hnd h1] at hx
      exact h1 hx

theorem C9_witness :
    EventBus.remove_listener [("x", [1])] "x" 5 = [("x", [1])]
    ∧ EventBus.remove_listener [("x", [1])] "y" 5 = [("x", [1])]
    ∧ (EventBus.remove_listener [("x", [1, 2])] "x" 1).getD "x" = [2]
    ∧ (∀ j ∈ EventBus.fire
        (EventBus.remove_listener (EventBus.listen [("x", [1])] "x" 5) "x" 5)
        "x", j.2 ≠ 5) := by
  refine ⟨?_, ?_, ?_, ?_⟩
  · exact (C9_remove_listener [("x", [1])] "x" 5 (by decide)).2.1 [1] rfl
      (by decide)
  · exact (C9_remove_listener [("x", [1])] "y" 5 (by decide)).1 rfl
  · exact ((C9_remove_listener [("x", [1, 2])] "x" 1 (by decide)).2.2.1 [1, 2]
      rfl (by decide)).1
  · exact (C9_remove_listener [("x", [1])] "x" 5 (by decide)).2.2.2
      (by decide) (by decide)

/-- C5: a blocking `call` returns `True` when the completion gate is
signalled within the `SERVICE_CALL_LIMIT` of 10 seconds and `False` on
timeout, in the latter case with the temporary `service_executed` listener
removed from the bus; a non-blocking `call` returns `None` right after
firing `call_service`, leaving the listener table untouched. -/
theorem C5_blocking_call (reg : ServiceRegistry) (bus : LTable) (heap : DHeap)
    (domain service : String) (service_data : Option Nat) (gid : Nat)
    (signalled : Bool)
    (hnd : (bus.map Prod.fst).Nodup)
    (hfresh : gid ∉ bus.getD EVENT_SERVICE_EXECUTED) :
    ((ServiceRegistry.call reg bus heap domain service service_data true gid
        signalled).ret = some signalled)
    ∧ (signalled = false →
        gid ∉ (ServiceRegistry.call reg bus heap domain service service_data
            true gid false).bus.getD EVENT_SERVICE_EXECUTED)
    ∧ ((ServiceRegistry.call reg bus heap domain service service_data false
        gid signalled).ret = none)
    ∧ ((ServiceRegistry.call reg bus heap domain service service_data false
        gid signalled).bus = bus)
    ∧ (∀ blocking, (ServiceRegistry.call reg bus heap domain service
        service_data blocking gid signalled).fired.map Prod.fst
          = [EVENT_CALL_SERVICE])
    ∧ SERVICE_CALL_LIMIT = 10 := by
  refine ⟨?_, ?_, ?_, ?_, ?_, rfl⟩
  · cases signalled <;> rfl
  · intro _
    show gid ∉ (EventBus.remove_listener
        (EventBus.listen bus EVENT_SERVICE_EXECUTED gid)
        EVENT_SERVICE_EXECUTED gid).getD EVENT_SERVICE_EXECUTED
    rw [listen_remove_getD bus EVENT_SERVICE_EXECUTED gid hnd hfresh]
    exact hfresh
  · rfl
  · rfl
  · intro blocking
    cases blocking <;> cases signalled <;> rfl

theorem C5_witness :
    ((ServiceRegistry.call ⟨9, 0⟩ [] [[("k", "v")]] "test" "slow" (some 0)
        true 42 false).ret = some false)
    ∧ (42 ∉ (ServiceRegistry.call ⟨9, 0⟩ [] [[("k", "v")]] "test" "slow"
        (some 0) true 42 false).bus.getD EVENT_SERVICE_EXECUTED)
    ∧ ((ServiceRegistry.call ⟨9, 0⟩ [] [[("k", "v")]] "test" "ping" (some 0)
        false 42 false).ret = none) := by
  have h := C5_blocking_call ⟨9, 0⟩ [] [[("k", "v")]] "test" "slow" (some 0)
    42 false (by decide) (by decide)
  have h2 := C5_blocking_call ⟨9, 0⟩ [] [[("k", "v")]] "test" "ping" (some 0)
    42 false (by decide) (by decide)
  exact ⟨h.1, h.2.1 rfl, h2.2.2.1⟩

theorem onetime_invokes_spent (tbl : LTable) (event_type : String)
    (gid : Nat) : ∀ n, onetime_invokes ⟨true⟩ tbl event_type gid n
      = (⟨true⟩, tbl, []) := by
  intro n
  induction n with
  | zero => rfl
  | succ k ih =>
      unfold onetime_invokes
      dsimp only
      rw [show onetime_invoke ⟨true⟩ tbl event_type gid
          = (⟨true⟩, tbl, []) from rfl]
      dsimp only
      rw [ih]
      rfl

/-- C6: a listener registered through `listen_once` invokes its target at
most once over any number of invocations of its wrapper; the first
invocation removes the wrapper from the bus before invoking the target and
every later invocation does nothing. -/
theorem C6_listen_once_at_most_once (tbl : LTable) (event_type : String)
    (gid n : Nat) :
    ((onetime_invokes (EventBus.listen_once tbl event_type gid).2
        (EventBus.listen_once tbl event_type gid).1 event_type gid n).2.2
      = if n = 0 then []
        else [GuardAction.removeSelf, GuardAction.callTarget])
    ∧ ((onetime_invokes (EventBus.listen_once tbl event_type gid).2
        (EventBus.listen_once tbl event_type gid).1 event_type gid n).2.2.count
          GuardAction.callTarget ≤ 1)
    ∧ (∀ g tbl2, g.run = true →
        onetime_invoke g tbl2 event_type gid = (g, tbl2, [])) := by
  have hbody : ∀ m, (onetime_invokes ⟨false⟩
      (EventBus.listen tbl event_type gid) event_type gid m).2.2
      = if m = 0 then []
        else [GuardAction.removeSelf, GuardAction.callTarget] := by
    intro m
    cases m with
    | zero => rfl
    | succ k =>
        unfold onetime_invokes
        dsimp only
        rw [show onetime_invoke ⟨false⟩ (EventBus.listen tbl event_type gid)
            event_type gid
            = (⟨true⟩, EventBus.remove_listener
                (EventBus.listen tbl event_type gid) event_type gid,
              [GuardAction.removeSelf, GuardAction.callTarget]) from rfl]
        dsimp only
        rw [onetime_invokes_spent]
        simp
  refine ⟨hbody n, ?_, ?_⟩
  · rw [show (onetime_invokes (EventBus.listen_once tbl event_type gid).2
        (EventBus.listen_once tbl event_type gid).1 event_type gid n).2.2
        = (onetime_invokes ⟨false⟩ (EventBus.listen tbl event_type gid)
            event_type gid n).2.2 from rfl, hbody n]
    by_cases h : n = 0
    · rw [if_pos h]
      decide
    · rw [if_neg h]
      decide
  · intro g tbl2 hg
    obtain ⟨r⟩ := g
    cases hg
    rfl

theorem C6_witness :
    ((onetime_invokes (EventBus.listen_once [] "x" 5).2
        (EventBus.listen_once [] "x" 5).1 "x" 5 3).2.2
      = [GuardAction.removeSelf, GuardAction.callTarget])
    ∧ ((onetime_invokes (EventBus.listen_once [] "x" 5).2
        (EventBus.listen_once [] "x" 5).1 "x" 5 3).2.2.count
          GuardAction.callTarget ≤ 1)
    ∧ onetime_invoke ⟨true⟩ [] "x" 5 = (⟨true⟩, [], []) := by
  have h := C6_listen_once_at_most_once [] "x" 5 3
  exact ⟨by rw [h.1]; rfl, h.2.1, h.2.2 ⟨true⟩ [] rfl⟩

/-- C7: serializing a `State` with whole-second `last_changed` and parsing
it back yields a state equal to the original under `State.__eq__`, which
compares only entity id, state and attributes. -/
theorem C7_round_trip (s : State) (now : PyTime)
    (hid : entityIdMatch s.entity_id = true)
    (hlow : pyLower s.entity_id = s.entity_id)
    (husec : s.last_changed.usec = 0) :
    ∃ t, State.from_dict (State.as_dict s) now = some t
      ∧ State.pyEq t s = true := by
  unfold State.as_dict State.from_dict
  simp only [JsonDict.get, String.reduceEq, if_false, if_true, reduceIte]
  unfold State.init
  rw [if_pos hid]
  refine ⟨_, rfl, ?_⟩
  simp [State.pyEq, hlow]

theorem C7_witness :
    (State.from_dict
        (State.as_dict ⟨"light.a", "on", [("b", "1")], ⟨5, 0⟩, ⟨6, 1⟩⟩)
        ⟨99, 9⟩).map
      (fun t => State.pyEq t ⟨"light.a", "on", [("b", "1")], ⟨5, 0⟩, ⟨6, 1⟩⟩)
      = some true := by
  obtain ⟨t, h1, h2⟩ := C7_round_trip
    ⟨"light.a", "on", [("b", "1")], ⟨5, 0⟩, ⟨6, 1⟩⟩ ⟨99, 9⟩ (by decide)
    (by decide) rfl
  rw [h1, Option.map_some', h2]

/-- C8 counterexample: `get_since` hands back the address stored in the
map itself — an aliased reference to the live `State` — and mutating the
object at that address changes what a later `get` of the same entity
returns. -/
theorem C8_counterexample :
    StateMachine.get_since [⟨"light.a", "on", [], ⟨5, 0⟩, ⟨5, 0⟩⟩]
        [("light.a", 0)] ⟨0, 0⟩ = [0]
    ∧ SMap.find [("light.a", 0)] "light.a" = some 0
    ∧ StateMachine.get
        (SHeap.write [⟨"light.a", "on", [], ⟨5, 0⟩, ⟨5, 0⟩⟩] 0
          ⟨"light.a", "off", [], ⟨5, 0⟩, ⟨5, 0⟩⟩)
        [("light.a", 0)] "light.a" ⟨6, 0⟩
      = ([⟨"light.a", "off", [], ⟨5, 0⟩, ⟨5, 0⟩⟩,
          ⟨"light.a", "off", [], ⟨5, 0⟩, ⟨6, 0⟩⟩], some 1) := by
  refine ⟨by decide, by decide, by decide⟩

theorem all_addrs_fresh (m : SMap) : ∀ (h : SHeap) (now : PyTime) (x : Nat),
    x ∈ (StateMachine.all h m now).2 → List.length h ≤ x := by
  induction m with
  | nil =>
      intro h now x hx
      cases hx
  | cons p rest ih =>
      intro h now x hx
      obtain ⟨eid, a⟩ := p
      unfold StateMachine.all at hx
      dsimp only at hx
      rw [List.mem_cons] at hx
      rcases hx with hx | hx
      · subst hx
        exact Nat.le_refl _
      · have h2 := ih (SHeap.alloc h ((SHeap.getD h a).copy now)).1 now x hx
        have h3 : List.length (SHeap.alloc h ((SHeap.getD h a).copy now)).1
            = List.length h + 1 := by
          unfold SHeap.alloc
          dsimp only
          rw [List.append_eq, List.length_append]
          rfl
        rw [h3] at h2
        exact Nat.le_of_succ_le h2

/-- C8 (amended): `get` and `all` return freshly allocated copies — no
address they hand out is one the map stores, so mutating a returned object
leaves the registry untouched — but `get_since` returns the stored
addresses themselves, so the caller does receive aliased references to the
live states. -/
theorem C8_reads_copy_except_get_since (h : SHeap) (m : SMap)
    (entity_id : String) (now p : PyTime)
    (hwf : ∀ q ∈ m, q.2 < List.length h) :
    (∀ a, m.find (pyLower entity_id) = some a →
        StateMachine.get h m entity_id now
          = (List.append h [(SHeap.getD h a).copy now], some (List.length h))
        ∧ ∀ q ∈ m, q.2 ≠ List.length h)
    ∧ (m.find (pyLower entity_id) = none →
        StateMachine.get h m entity_id now = (h, none))
    ∧ (∀ x ∈ (StateMachine.all h m now).2,
        (List.length h ≤ x) ∧ ∀ q ∈ m, q.2 ≠ x)
    ∧ (∀ x ∈ StateMachine.get_since h m p, ∃ eid, (eid, x) ∈ m) := by
  refine ⟨?_, ?_, ?_, ?_⟩
  · intro a hfind
    constructor
    · unfold StateMachine.get
      rw [hfind]
      rfl
    · intro q hq he
      exact Nat.ne_of_lt (hwf q hq) he
  · intro hfind
    unfold StateMachine.get
    rw [hfind]
  · intro x hx
    have h1 := all_addrs_fresh m h now x hx
    refine ⟨h1, fun q hq he => ?_⟩
    exact absurd (he ▸ hwf q hq) (Nat.not_lt.mpr h1)
  · intro x hx
    unfold StateMachine.get_since at hx
    dsimp only at hx
    rw [List.mem_map] at hx
    obtain ⟨e, he, hee⟩ := hx
    rw [List.mem_filter] at he
    exact ⟨e.1, by rw [show (e.1, x) = e from by rw [← hee]] ; exact he.1⟩

theorem C8_witness :
    StateMachine.get [⟨"light.a", "on", [], ⟨5, 0⟩, ⟨5, 0⟩⟩]
        [("light.a", 0)] "light.a" ⟨6, 0⟩
      = ([⟨"light.a", "on", [], ⟨5, 0⟩, ⟨5, 0⟩⟩,
          ⟨"light.a", "on", [], ⟨5, 0⟩, ⟨6, 0⟩⟩], some 1) := by
  have h := (C8_reads_copy_except_get_since
      [⟨"light.a", "on", [], ⟨5, 0⟩, ⟨5, 0⟩⟩] [("light.a", 0)] "light.a"
      ⟨6, 0⟩ ⟨0, 0⟩ (by decide)).1 0 (by decide)
  rw [h.1]
  rfl

theorem pyInsert_ne_nil (d : Dict) (k v : String) : pyInsert d k v ≠ [] := by
  cases d with
  | nil => simp [pyInsert]
  | cons p rest =>
      obtain ⟨k2, v2⟩ := p
      unfold pyInsert
      by_cases h : k2 = k
      · rw [if_pos h]
        simp
      · rw [if_neg h]
        simp

theorem dictGet_pyInsert_self (d : Dict) (k v : String) :
    dictGet (pyInsert d k v) k = some v := by
  induction d with
  | nil => simp [pyInsert, dictGet]
  | cons p rest ih =>
      obtain ⟨k2, v2⟩ := p
      by_cases h : k2 = k
      · rw [show pyInsert ((k2, v2) :: rest) k v = (k, v) :: rest from by
          simp only [pyInsert]; rw [if_pos h]]
        simp [dictGet]
      · rw [show pyInsert ((k2, v2) :: rest) k v
            = (k2, v2) :: pyInsert rest k v from by
          simp only [pyInsert]; rw [if_neg h]]
        unfold dictGet
        rw [if_neg h]
        exact ih

theorem dictGet_pyInsert_ne (d : Dict) (k k2 v : String) (h : k2 ≠ k) :
    dictGet (pyInsert d k v) k2 = dictGet d k2 := by
  induction d with
  | nil =>
      simp [pyInsert, dictGet, if_neg (fun he : k = k2 => h he.symm)]
  | cons p rest ih =>
      obtain ⟨k3, v3⟩ := p
      by_cases h3 : k3 = k
      · rw [show pyInsert ((k3, v3) :: rest) k v = (k, v) :: rest from by
          simp only [pyInsert]; rw [if_pos h3]]
        unfold dictGet
        rw [if_neg (fun he : k = k2 => h he.symm),
          if_neg (fun he : k3 = k2 => h (h3 ▸ he : k = k2).symm)]
      · rw [show pyInsert ((k3, v3) :: rest) k v
            = (k3, v3) :: pyInsert rest k v from by
          simp only [pyInsert]; rw [if_neg h3]]
        unfold dictGet
        by_cases h32 : k3 = k2
        · rw [if_pos h32, if_pos h32]
        · rw [if_neg h32, if_neg h32]
          exact ih

theorem dheap_getD_lt (hp : DHeap) (a : Nat) (h : hp.getD a ≠ []) :
    a < List.length hp := by
  by_contra hge
  apply h
  unfold DHeap.getD
  rw [List.getD_eq_getElem?_getD, List.getElem?_eq_none (Nat.le_of_not_lt hge)]
  rfl

theorem dheap_write_getD_self (hp : DHeap) (a : Nat) (d : Dict)
    (h : a < List.length hp) : (hp.write a d).getD a = d := by
  unfold DHeap.write DHeap.getD
  rw [List.getD_eq_getElem?_getD, List.getElem?_set_self h, Option.getD_some]

theorem call_heap_fired (reg : ServiceRegistry) (bus : LTable) (heap : DHeap)
    (domain service : String) (a gid : Nat) (blocking signalled : Bool)
    (hne : heap.getD a ≠ []) :
    (ServiceRegistry.call reg bus heap domain service (some a) blocking gid
        signalled).heap
      = heap.write a (pyInsert (pyInsert (pyInsert (heap.getD a) ATTR_DOMAIN
          domain) ATTR_SERVICE service) ATTR_SERVICE_CALL_ID
          (reg.generate_unique_id).2)
    ∧ (ServiceRegistry.call reg bus heap domain service (some a) blocking gid
        signalled).fired = [(EVENT_CALL_SERVICE, a)] := by
  have hlt : a < List.length heap := dheap_getD_lt heap a hne
  unfold ServiceRegistry.call Event.dataAddr
  dsimp only
  rw [if_neg hne]
  dsimp only
  rw [dheap_write_getD_self heap a _ hlt,
    if_neg (pyInsert_ne_nil _ ATTR_SERVICE_CALL_ID _)]
  cases blocking <;> cases signalled <;> exact ⟨rfl, rfl⟩

/-- C10: a `call` given a non-empty `service_data` mapping writes `domain`,
`service` and `service_call_id` into the caller's mapping in place,
overwriting any values the caller stored under those keys, before firing
`call_service`; the fired event's data is that same mapping, not a copy. -/
theorem C10_call_mutates_service_data (reg : ServiceRegistry) (bus : LTable)
    (heap : DHeap) (domain service : String) (a gid : Nat)
    (blocking signalled : Bool)
    (hne : heap.getD a ≠ []) :
    ((ServiceRegistry.call reg bus heap domain service (some a) blocking gid
        signalled).fired = [(EVENT_CALL_SERVICE, a)])
    ∧ ((ServiceRegistry.call reg bus heap domain service (some a) blocking gid
        signalled).heap.getD a
      = pyInsert (pyInsert (pyInsert (heap.getD a) ATTR_DOMAIN domain)
          ATTR_SERVICE service) ATTR_SERVICE_CALL_ID
          (reg.generate_unique_id).2)
    ∧ (dictGet ((ServiceRegistry.call reg bus heap domain service (some a)
        blocking gid signalled).heap.getD a) ATTR_DOMAIN = some domain)
    ∧ (dictGet ((ServiceRegistry.call reg bus heap domain service (some a)
        blocking gid signalled).heap.getD a) ATTR_SERVICE = some service)
    ∧ (dictGet ((ServiceRegistry.call reg bus heap domain service (some a)
        blocking gid signalled).heap.getD a) ATTR_SERVICE_CALL_ID
      = some (reg.generate_unique_id).2) := by
  obtain ⟨hh, hf⟩ := call_heap_fired reg bus heap domain service a gid
    blocking signalled hne
  have hlt : a < List.length heap := dheap_getD_lt heap a hne
  have hw : (ServiceRegistry.call reg bus heap domain service (some a)
      blocking gid signalled).heap.getD a
      = pyInsert (pyInsert (pyInsert (heap.getD a) ATTR_DOMAIN domain)
          ATTR_SERVICE service) ATTR_SERVICE_CALL_ID
          (reg.generate_unique_id).2 := by
    rw [hh]
    exact dheap_write_getD_self heap a _ hlt
  refine ⟨hf, hw, ?_, ?_, ?_⟩
  · rw [hw, dictGet_pyInsert_ne _ _ _ _ (by decide),
      dictGet_pyInsert_ne _ _ _ _ (by decide), dictGet_pyInsert_self]
  · rw [hw, dictGet_pyInsert_ne _ _ _ _ (by decide), dictGet_pyInsert_self]
  · rw [hw, dictGet_pyInsert_self]

theorem C10_witness :
    ((ServiceRegistry.call ⟨9, 0⟩ [] [[("domain", "evil"), ("x", "1")]]
        "test" "ping" (some 0) false 42 false).fired
      = [(EVENT_CALL_SERVICE, 0)])
    ∧ ((ServiceRegistry.call ⟨9, 0⟩ [] [[("domain", "evil"), ("x", "1")]]
        "test" "ping" (some 0) false 42 false).heap.getD 0
      = [("domain", "test"), ("x", "1"), ("service", "ping"),
         ("service_call_id", "9-1")]) := by
  have h := C10_call_mutates_service_data ⟨9, 0⟩ []
    [[("domain", "evil"), ("x", "1")]] "test" "ping" 0 42 false false
    (by decide)
  refine ⟨h.1, ?_⟩
  rw [h.2.1]
  rfl

end HA
